import Mathlib

/-!
Verification of the image-to-PDF conversion pipeline (`src/app.py`).

The development shallowly embeds the pipeline function
`convert_images_to_pdf` and its helper `natural_sort_key`:

* characters and strings are Lean `Char` / `String` (Python string
  comparison is code-point lexicographic, as here; case folding is
  modelled on ASCII letters, which is what the filenames and the
  page-size strings use);
* `re.split` on the pattern of a parenthesised digit run is modelled by
  `splitDigitRuns`, producing the alternating non-digit/digit pieces
  that the Python call returns; the regex digit class is the Unicode
  category Nd, which on the Latin-1 range is exactly the decimal digits
  0-9, so the split is exact there; `str.isdigit` is wider than Nd, and
  the resulting `int()` failure of the real key function is captured by
  the second, fallible key model `natural_sort_key_latin1` below;
* geometry is exact rational arithmetic (`ℚ`), matching the spec's
  "scale is a pure ratio";
* the filesystem and the image decoder are oracles carried in an
  environment `Env`: the outcome of `os.makedirs`, `os.listdir`
  (which enumerates files and subdirectories alike), per-file
  decode/draw (`ImageReader`/`getSize`/`drawImage`/`showPage` as one
  fallible step), and `Canvas.save`;
* the progress callback is modelled by accumulating the emitted events;
  each distinct message format of the source is one constructor of
  `Event`; the callback itself is assumed not to raise;
* Python's `sorted(..., key=natural_sort_key)`, a stable sort by the
  key order, is modelled by `List.insertionSort`, which is stable and
  sorts; a stable sort by a total transitive relation is unique, so
  this is the function the source computes.
-/

namespace JPdf

/-! ## Natural sort key (`natural_sort_key`, src/app.py lines 10-14) -/

/-- One element of the Python key list: either a lowercased string piece
or an integer obtained from a digit run. -/
inductive NKey where
  | str : List Char → NKey
  | num : Nat → NKey
deriving DecidableEq

/-- ASCII lower-casing of one character, as `str.lower` acts on the
ASCII range. -/
def asciiLower (c : Char) : Char :=
  if 'A' ≤ c && c ≤ 'Z' then Char.ofNat (c.toNat + 32) else c

/-- Model of `re.split` with a parenthesised digit-run pattern applied to
the character list of a filename: the result alternates non-digit
pieces (possibly empty) and non-empty digit runs, starting and ending
with a non-digit piece, and concatenates back to the input. -/
def splitDigitRuns : List Char → List (List Char)
  | [] => [[]]
  | c :: cs =>
    match splitDigitRuns cs with
    | [] => []
    | nd :: rest =>
      if c.isDigit then
        match nd, rest with
        | [], d :: rest2 => [] :: (c :: d) :: rest2
        | _, _ => [] :: [c] :: nd :: rest
      else (c :: nd) :: rest

/-- Decimal approximation of Python `str.isdigit`: non-empty and all
decimal digits. This is the test the total key model below uses; it
coincides with Python's `isdigit` on every filename whose characters
classify identically under the digit property and the category Nd —
in particular on all ASCII filenames. The exact Latin-1 test,
including the superscript digits that `int()` then rejects, is
`pyStrIsDigitU` below. -/
def pyStrIsDigit (cs : List Char) : Bool :=
  !cs.isEmpty && cs.all Char.isDigit

/-- Numeric value of a digit run, as Python `int` reads it. -/
def digitsVal (cs : List Char) : Nat :=
  cs.foldl (fun n c => n * 10 + (c.toNat - 48)) 0

/-- One element of the key list:
`int(text) if text.isdigit() else text.lower()`. -/
def pyKeyElem (cs : List Char) : NKey :=
  if pyStrIsDigit cs then NKey.num (digitsVal cs) else NKey.str (cs.map asciiLower)

/-- The key function of the source:
`[int(text) if text.isdigit() else text.lower() for text in re.split(pattern, s)]`. -/
def natural_sort_key (s : String) : List NKey :=
  (splitDigitRuns s.data).map pyKeyElem

/-! ## Comparison of keys (Python `list`/`str`/`int` comparison)

Python compares lists lexicographically, testing elements for equality
and deciding at the first unequal pair; strings compare by code point,
integers by value.  A comparison of an `int` with a `str` would raise
`TypeError` in Python; the alternation of the key shape (lemmas
`splitDigitRuns_alt` and `piecesAlt_getElem` below) means such a pair
never occurs at matching positions of two keys, so the arbitrary value
chosen below for the mixed case never influences a sort. -/

/-- Strict lexicographic comparison of character lists (Python `str`
less-than, by code point). -/
def charListLT : List Char → List Char → Bool
  | [], [] => false
  | [], _ :: _ => true
  | _ :: _, [] => false
  | a :: as, b :: bs => if a = b then charListLT as bs else decide (a < b)

/-- Strict comparison of key elements. The two mixed cases are
unreachable when comparing natural-sort keys, by the alternation of
the key shape. -/
def nkeyLT : NKey → NKey → Bool
  | NKey.num a, NKey.num b => decide (a < b)
  | NKey.str a, NKey.str b => charListLT a b
  | NKey.num _, NKey.str _ => true
  | NKey.str _, NKey.num _ => false

/-- Non-strict lexicographic comparison of key lists (Python `list`
less-or-equal: equal elements are skipped, the first unequal pair
decides, a prefix is smaller). -/
def keyLE : List NKey → List NKey → Bool
  | [], _ => true
  | _ :: _, [] => false
  | x :: xs, y :: ys => if x = y then keyLE xs ys else nkeyLT x y

/-- Comparison of filenames by natural sort key, the order used by
`sorted(..., key=natural_sort_key)`. -/
def natKeyLE (a b : String) : Bool :=
  keyLE (natural_sort_key a) (natural_sort_key b)

/-- The sorting relation as a proposition. -/
def natLe (a b : String) : Prop := natKeyLE a b = true

instance : DecidableRel natLe := fun a b => by unfold natLe; infer_instance

/-! ### Order lemmas for the key comparison -/

theorem charListLT_irrefl : ∀ as, charListLT as as = false := by
  intro as
  induction as with
  | nil => rfl
  | cons a as ih => simp [charListLT, ih]

theorem charListLT_trans : ∀ as bs cs, charListLT as bs = true →
    charListLT bs cs = true → charListLT as cs = true := by
  intro as
  induction as with
  | nil =>
    intro bs cs h1 h2
    cases bs with
    | nil => simp [charListLT] at h1
    | cons b bs =>
      cases cs with
      | nil => simp [charListLT] at h2
      | cons c cs => rfl
  | cons a as ih =>
    intro bs cs h1 h2
    cases bs with
    | nil => simp [charListLT] at h1
    | cons b bs =>
      cases cs with
      | nil => simp [charListLT] at h2
      | cons c cs =>
        simp only [charListLT] at h1 h2 ⊢
        by_cases hab : a = b
        · subst hab
          simp only [if_pos rfl] at h1
          by_cases hac : a = c
          · subst hac
            simp only [if_pos rfl] at h2 ⊢
            exact ih bs cs h1 h2
          · simp only [if_neg hac] at h2 ⊢
            exact h2
        · simp only [if_neg hab] at h1
          by_cases hbc : b = c
          · subst hbc
            simp only [if_neg hab] at h2 ⊢
            exact h1
          · simp only [if_neg hbc] at h2
            have hab' : a < b := of_decide_eq_true h1
            have hbc' : b < c := of_decide_eq_true h2
            have hac : a < c := lt_trans hab' hbc'
            have : a ≠ c := ne_of_lt hac
            simp [if_neg this, hac]

theorem charListLT_total_of_ne : ∀ as bs, as ≠ bs →
    charListLT as bs = true ∨ charListLT bs as = true := by
  intro as
  induction as with
  | nil =>
    intro bs hne
    cases bs with
    | nil => exact absurd rfl hne
    | cons b bs => exact Or.inl rfl
  | cons a as ih =>
    intro bs hne
    cases bs with
    | nil => exact Or.inr rfl
    | cons b bs =>
      by_cases hab : a = b
      · subst hab
        have htl : as ≠ bs := by
          intro h
          exact hne (by rw [h])
        rcases ih bs htl with h | h
        · exact Or.inl (by simp [charListLT, h])
        · exact Or.inr (by simp [charListLT, h])
      · rcases lt_or_gt_of_ne hab with h | h
        · exact Or.inl (by simp [charListLT, if_neg hab, h])
        · refine Or.inr ?_
          have hba : b ≠ a := fun hba => hab hba.symm
          simp [charListLT, if_neg hba, h]

theorem nkeyLT_trans : ∀ x y z, nkeyLT x y = true → nkeyLT y z = true →
    nkeyLT x z = true := by
  intro x y z h1 h2
  cases x <;> cases y <;> cases z <;> simp [nkeyLT] at h1 h2 ⊢
  · exact charListLT_trans _ _ _ h1 h2
  · exact lt_trans h1 h2

theorem nkeyLT_irrefl : ∀ x, nkeyLT x x = false := by
  intro x
  cases x with
  | str a => simp [nkeyLT, charListLT_irrefl]
  | num n => simp [nkeyLT]

theorem nkeyLT_total_of_ne : ∀ x y, x ≠ y →
    nkeyLT x y = true ∨ nkeyLT y x = true := by
  intro x y hne
  cases x with
  | str a =>
    cases y with
    | str b =>
      have hab : a ≠ b := by
        intro h
        exact hne (by rw [h])
      rcases charListLT_total_of_ne a b hab with h | h
      · exact Or.inl (by simpa [nkeyLT] using h)
      · exact Or.inr (by simpa [nkeyLT] using h)
    | num m => exact Or.inr (by simp [nkeyLT])
  | num n =>
    cases y with
    | str b => exact Or.inl (by simp [nkeyLT])
    | num m =>
      have hnm : n ≠ m := by
        intro h
        exact hne (by rw [h])
      rcases Nat.lt_or_ge n m with h | h
      · exact Or.inl (by simpa [nkeyLT] using h)
      · have : m < n := lt_of_le_of_ne h (fun h => hnm h.symm)
        exact Or.inr (by simpa [nkeyLT] using this)

theorem nkeyLT_asymm : ∀ x y, nkeyLT x y = true → nkeyLT y x = true → False := by
  intro x y h1 h2
  have h3 : nkeyLT x x = true := nkeyLT_trans x y x h1 h2
  rw [nkeyLT_irrefl] at h3
  exact Bool.false_ne_true h3

theorem keyLE_refl : ∀ xs, keyLE xs xs = true := by
  intro xs
  induction xs with
  | nil => rfl
  | cons x xs ih => simp [keyLE, ih]

theorem keyLE_total : ∀ xs ys, keyLE xs ys = true ∨ keyLE ys xs = true := by
  intro xs
  induction xs with
  | nil => intro ys; exact Or.inl rfl
  | cons x xs ih =>
    intro ys
    cases ys with
    | nil => exact Or.inr rfl
    | cons y ys =>
      by_cases hxy : x = y
      · subst hxy
        rcases ih ys with h | h
        · exact Or.inl (by simp [keyLE, h])
        · exact Or.inr (by simp [keyLE, h])
      · have hyx : y ≠ x := fun h => hxy h.symm
        rcases nkeyLT_total_of_ne x y hxy with h | h
        · exact Or.inl (by simp [keyLE, if_neg hxy, h])
        · exact Or.inr (by simp [keyLE, if_neg hyx, h])

theorem keyLE_trans : ∀ xs ys zs, keyLE xs ys = true → keyLE ys zs = true →
    keyLE xs zs = true := by
  intro xs
  induction xs with
  | nil => intro ys zs h1 h2; rfl
  | cons x xs ih =>
    intro ys zs h1 h2
    cases ys with
    | nil => simp [keyLE] at h1
    | cons y ys =>
      cases zs with
      | nil => simp [keyLE] at h2
      | cons z zs =>
        simp only [keyLE] at h1 h2 ⊢
        by_cases hxy : x = y
        · subst hxy
          simp only [if_pos rfl] at h1
          by_cases hxz : x = z
          · subst hxz
            simp only [if_pos rfl] at h2 ⊢
            exact ih ys zs h1 h2
          · simp only [if_neg hxz] at h2 ⊢
            exact h2
        · simp only [if_neg hxy] at h1
          by_cases hyz : y = z
          · subst hyz
            simp only [if_neg hxy] at h2 ⊢
            exact h1
          · simp only [if_neg hyz] at h2
            have hxz : nkeyLT x z = true := nkeyLT_trans x y z h1 h2
            have : x ≠ z := by
              intro h
              subst h
              exact nkeyLT_asymm x y h1 h2
            simp [if_neg this, hxz]

instance : IsTrans String natLe := by
  constructor
  intro a b c hab hbc
  unfold natLe natKeyLE at hab hbc ⊢
  exact keyLE_trans _ _ _ hab hbc

instance : IsTotal String natLe := by
  constructor
  intro a b
  unfold natLe natKeyLE
  exact keyLE_total _ _

/-! ### Shape of the split: alternating non-digit and digit pieces -/

/-- A piece with no digit character (an uncaptured piece of the split). -/
def noDigitPiece (p : List Char) : Bool := p.all (fun c => !c.isDigit)

/-- A non-empty all-digit piece (a captured digit run of the split). -/
def digitRunPiece (p : List Char) : Bool := !p.isEmpty && p.all Char.isDigit

/-- Alternation of pieces, starting with a non-digit piece when the flag
is `true` and with a digit run when it is `false`. -/
def piecesAlt : Bool → List (List Char) → Bool
  | _, [] => true
  | b, p :: rest => cond b (noDigitPiece p) (digitRunPiece p) && piecesAlt (!b) rest

theorem splitDigitRuns_ne_nil : ∀ cs, splitDigitRuns cs ≠ [] := by
  intro cs
  induction cs with
  | nil => simp [splitDigitRuns]
  | cons c cs ih =>
    simp only [splitDigitRuns]
    cases h : splitDigitRuns cs with
    | nil => exact absurd h ih
    | cons nd rest =>
      by_cases hc : c.isDigit
      · cases nd <;> cases rest <;> simp [hc]
      · simp [hc]

theorem splitDigitRuns_alt : ∀ cs, piecesAlt true (splitDigitRuns cs) = true := by
  intro cs
  induction cs with
  | nil => rfl
  | cons c cs ih =>
    simp only [splitDigitRuns]
    cases h : splitDigitRuns cs with
    | nil => exact absurd h (splitDigitRuns_ne_nil cs)
    | cons nd rest =>
      rw [h] at ih
      simp only [piecesAlt, Bool.and_eq_true, cond_true, Bool.not_true] at ih
      obtain ⟨ih1, ih2⟩ := ih
      by_cases hc : c.isDigit
      · simp only [if_pos hc]
        cases nd with
        | cons c0 nd0 =>
          simp only [piecesAlt, Bool.and_eq_true, cond_true, cond_false,
            Bool.not_true, Bool.not_false]
          refine ⟨by simp [noDigitPiece], ?_, ih1, ih2⟩
          simp [digitRunPiece, hc]
        | nil =>
          cases rest with
          | nil =>
            simp only [piecesAlt, Bool.and_eq_true, cond_true, cond_false,
              Bool.not_true, Bool.not_false]
            exact ⟨by simp [noDigitPiece], by simp [digitRunPiece, hc],
              by simp [piecesAlt, noDigitPiece]⟩
          | cons d rest2 =>
            simp only [piecesAlt, Bool.and_eq_true, cond_false, Bool.not_false] at ih2
            obtain ⟨hdrun, hrest2⟩ := ih2
            have hdall : d.all Char.isDigit = true := by
              simp only [digitRunPiece, Bool.and_eq_true] at hdrun
              exact hdrun.2
            simp only [piecesAlt, Bool.and_eq_true, cond_true, cond_false,
              Bool.not_true, Bool.not_false]
            refine ⟨by simp [noDigitPiece], ?_, hrest2⟩
            simp [digitRunPiece, hc, hdall]
      · simp only [if_neg hc]
        have hnd : noDigitPiece (c :: nd) = true := by
          simp only [noDigitPiece, List.all_cons, Bool.and_eq_true, Bool.not_eq_true']
          exact ⟨by simpa using hc, by simpa [noDigitPiece] using ih1⟩
        simp only [piecesAlt, Bool.and_eq_true, cond_true, Bool.not_true]
        exact ⟨hnd, ih2⟩

theorem splitDigitRuns_flatten : ∀ cs, (splitDigitRuns cs).flatten = cs := by
  intro cs
  induction cs with
  | nil => rfl
  | cons c cs ih =>
    simp only [splitDigitRuns]
    cases h : splitDigitRuns cs with
    | nil => exact absurd h (splitDigitRuns_ne_nil cs)
    | cons nd rest =>
      rw [h] at ih
      by_cases hc : c.isDigit
      · simp only [if_pos hc]
        cases nd with
        | cons c0 nd0 =>
          simpa using ih
        | nil =>
          cases rest with
          | nil => simpa using ih
          | cons d rest2 => simpa using ih
      · simp only [if_neg hc]
        simpa using ih

theorem piecesAlt_getElem : ∀ (l : List (List Char)) (b : Bool), piecesAlt b l = true →
    ∀ (i : Nat) (p : List Char), l[i]? = some p →
      (i % 2 = 0 → cond b (noDigitPiece p) (digitRunPiece p) = true)
    ∧ (i % 2 = 1 → cond b (digitRunPiece p) (noDigitPiece p) = true) := by
  intro l
  induction l with
  | nil => intro b hb i p hp; simp at hp
  | cons q l ih =>
    intro b hb i p hp
    simp only [piecesAlt, Bool.and_eq_true] at hb
    cases i with
    | zero =>
      simp only [List.getElem?_cons_zero, Option.some.injEq] at hp
      subst hp
      exact ⟨fun _ => hb.1, fun h => by omega⟩
    | succ j =>
      simp only [List.getElem?_cons_succ] at hp
      have H := ih (!b) hb.2 j p hp
      constructor
      · intro hparity
        have hj : j % 2 = 1 := by omega
        have := H.2 hj
        cases b <;> simpa using this
      · intro hparity
        have hj : j % 2 = 0 := by omega
        have := H.1 hj
        cases b <;> simpa using this

theorem noDigitPiece_not_pyStrIsDigit (p : List Char) (h : noDigitPiece p = true) :
    pyStrIsDigit p = false := by
  cases p with
  | nil => rfl
  | cons c cs =>
    simp only [noDigitPiece, List.all_cons, Bool.and_eq_true, Bool.not_eq_true'] at h
    simp [pyStrIsDigit, h.1]

/-! ## The conversion pipeline (`convert_images_to_pdf`, src/app.py lines 16-91) -/

/-- One entry of the source directory as `os.listdir` enumerates it:
a name, which may belong to a regular file or to a subdirectory
(`os.listdir` does not distinguish them and neither does the code). -/
structure DirEntry where
  name : String
  isDir : Bool
deriving DecidableEq

/-- The progress messages of the source, one constructor per distinct
format string passed to `progress_callback`:
`noImages` for the no-picture-files message (line 52),
`processing i total f` for the per-file header (line 58),
`fileFailed f err` for the per-file warning with the exception text
(line 83), `saved path` for the final success message (line 87) and
`fatal err` for the message of the outer handler (line 91). -/
inductive Event where
  | noImages : Event
  | processing : Nat → Nat → String → Event
  | fileFailed : String → String → Event
  | saved : String → Event
  | fatal : String → Event
deriving DecidableEq

/-- One page of the output document: the image it was drawn from and
the arguments of `c.drawImage(img, x, y, width, height)`. -/
structure Page where
  file : String
  x : ℚ
  y : ℚ
  w : ℚ
  h : ℚ
deriving DecidableEq

/-- Observable outcome of one run: the events given to the progress
callback in order, the pages drawn on the canvas in order, and whether
`c.save()` completed (only then does an output file exist on disk). -/
structure RunState where
  events : List Event
  pages : List Page
  savedFile : Bool
deriving DecidableEq

/-- Environment of one run: the three caller parameters and the
outcomes of the fallible external operations, in the order the code
performs them. `decode f` is the joint outcome of
`ImageReader`/`getSize`/`drawImage`/`showPage` for the file `f`:
either the pixel dimensions (and the draw succeeds), or the text of
the exception raised. -/
structure Env where
  image_folder : String
  output_pdf : String
  page_size : String
  mkdirResult : Except String Unit
  listing : Except String (List DirEntry)
  decode : String → Except String (ℚ × ℚ)
  saveResult : Except String Unit

/-- Letter page size in points, `reportlab.lib.pagesizes.letter`. -/
def letterSize : ℚ × ℚ := (612, 792)

/-- A4 page size in points, `reportlab.lib.pagesizes.A4`
(210 mm × 297 mm at 72/25.4 points per millimetre). -/
def a4Size : ℚ × ℚ := (75600 / 127, 106920 / 127)

/-- Page-size policy of the source (lines 31-34):
`A4 if page_size.lower() == 'a4' else letter`. -/
def selectPagesize (ps : String) : ℚ × ℚ :=
  if ps.data.map asciiLower = "a4".data then a4Size else letterSize

/-- The fixed margin of the source (line 65). -/
def margin : ℚ := 20

/-- Scale and centered placement computed per image
(src/app.py lines 64-77). -/
structure Placement where
  scale : ℚ
  w : ℚ
  h : ℚ
  x : ℚ
  y : ℚ
deriving DecidableEq

/-- Geometry of the source, lines 64-77: maximal drawable area from the
fixed margin, scale as the minimum of the two ratios, clamped to 1,
scaled dimensions, centered position. -/
def computePlacement (W H iw ih : ℚ) : Placement :=
  let maxW := W - 2 * margin
  let maxH := H - 2 * margin
  let scale0 := min (maxW / iw) (maxH / ih)
  let scale := if scale0 > 1 then 1 else scale0
  let nw := iw * scale
  let nh := ih * scale
  { scale := scale, w := nw, h := nh, x := (W - nw) / 2, y := (H - nh) / 2 }

/-- The page drawn for one image (`c.drawImage(...)` at line 78 followed
by `c.showPage()`). -/
def pageFor (f : String) (W H iw ih : ℚ) : Page :=
  let p := computePlacement W H iw ih
  { file := f, x := p.x, y := p.y, w := p.w, h := p.h }

/-- The per-file loop of the source (lines 55-83), processing the files
from index `i` on: each file first gets its processing event; a
successful decode/draw appends one page; a failure appends the warning
event and no page, and the loop continues. -/
def processFiles (env : Env) (W H : ℚ) (total : Nat) : Nat → List String → List Event × List Page
  | _, [] => ([], [])
  | i, f :: fs =>
    let rest := processFiles env W H total (i + 1) fs
    match env.decode f with
    | Except.ok (iw, ih) =>
      (Event.processing (i + 1) total f :: rest.1, pageFor f W H iw ih :: rest.2)
    | Except.error e =>
      (Event.processing (i + 1) total f :: Event.fileFailed f e :: rest.1, rest.2)

/-- The Sequencer of the source (lines 44-47): filter the listed names
by lowercased extension suffix and sort them by the natural key. The
entry kind plays no role: the code filters the name list returned by
`os.listdir` alone. -/
def imageExtensionList : List (List Char) :=
  [".png".data, ".jpg".data, ".jpeg".data, ".gif".data, ".bmp".data, ".tiff".data]

/-- Extension test of the source: `f.lower().endswith(image_extensions)`. -/
def hasImageExt (f : String) : Bool :=
  imageExtensionList.any (fun e => e.isSuffixOf (f.data.map asciiLower))

/-- Retained and naturally ordered filenames
(`sorted([f for f in os.listdir(...) if ...], key=natural_sort_key)`). -/
def imageFilesOf (entries : List DirEntry) : List String :=
  List.insertionSort natLe ((entries.map DirEntry.name).filter (fun f => hasImageExt f))

/-- Body of the outer `try` (lines 24-87). An `Except.error` is an
exception escaping to the outer handler; it carries the events emitted
and pages drawn before the raise together with the exception text.
`Canvas(...)` itself performs no file output (the file is written by
`c.save()`), so the only fallible steps are `os.makedirs`,
`os.listdir`, the per-file work and `c.save()`. -/
def convertBody (env : Env) : Except (RunState × String) RunState :=
  match env.mkdirResult with
  | Except.error e => Except.error (⟨[], [], false⟩, e)
  | Except.ok _ =>
    let WH := selectPagesize env.page_size
    match env.listing with
    | Except.error e => Except.error (⟨[], [], false⟩, e)
    | Except.ok entries =>
      let image_files := imageFilesOf entries
      let total := image_files.length
      if total = 0 then Except.ok ⟨[Event.noImages], [], false⟩
      else
        let ep := processFiles env WH.1 WH.2 total 0 image_files
        match env.saveResult with
        | Except.error e => Except.error (⟨ep.1, ep.2, false⟩, e)
        | Except.ok _ => Except.ok ⟨ep.1 ++ [Event.saved env.output_pdf], ep.2, true⟩

/-- The whole function `convert_images_to_pdf` (lines 16-91): the outer
handler turns every exception into one `fatal` event and returns
normally. The first component is what the caller receives: an
uncaught exception (`Except.error`) or the Python return value `None`
(`Except.ok ()`); the second is the observable run state. -/
def convert_images_to_pdf (env : Env) : Except String Unit × RunState :=
  match convertBody env with
  | Except.ok s => (Except.ok (), s)
  | Except.error (s, e) => (Except.ok (), ⟨s.events ++ [Event.fatal e], s.pages, s.savedFile⟩)

/-! ### Characterisation of the per-file loop -/

/-- The pages the loop draws for one file: one page on success, none on
failure. -/
def pagesOf (env : Env) (W H : ℚ) (f : String) : List Page :=
  match env.decode f with
  | Except.ok (iw, ih) => [pageFor f W H iw ih]
  | Except.error _ => []

/-- The failure events the loop emits for one file: none on success, one
warning on failure. -/
def failureEventsOf (env : Env) (f : String) : List Event :=
  match env.decode f with
  | Except.ok _ => []
  | Except.error e => [Event.fileFailed f e]

/-- Recogniser of the per-file warning events. -/
def eventIsFailure : Event → Bool
  | Event.fileFailed _ _ => true
  | _ => false

/-- All pages drawn for a list of files, in order. -/
def runPages (env : Env) (W H : ℚ) : List String → List Page
  | [] => []
  | f :: fs => pagesOf env W H f ++ runPages env W H fs

/-- All failure events emitted for a list of files, in order. -/
def runFailures (env : Env) : List String → List Event
  | [] => []
  | f :: fs => failureEventsOf env f ++ runFailures env fs

theorem runPages_append (env : Env) (W H : ℚ) :
    ∀ l1 l2, runPages env W H (l1 ++ l2) = runPages env W H l1 ++ runPages env W H l2 := by
  intro l1 l2
  induction l1 with
  | nil => simp [runPages]
  | cons f fs ih => simp [runPages, ih]

theorem runFailures_append (env : Env) :
    ∀ l1 l2, runFailures env (l1 ++ l2) = runFailures env l1 ++ runFailures env l2 := by
  intro l1 l2
  induction l1 with
  | nil => simp [runFailures]
  | cons f fs ih => simp [runFailures, ih]

theorem processFiles_pages (env : Env) (W H : ℚ) (total : Nat) :
    ∀ i fs, (processFiles env W H total i fs).2 = runPages env W H fs := by
  intro i fs
  induction fs generalizing i with
  | nil => rfl
  | cons f fs ih =>
    simp only [processFiles, runPages, pagesOf]
    cases hd : env.decode f with
    | ok d =>
      obtain ⟨iw, ih2⟩ := d
      simp [ih]
    | error e => simp [ih]

theorem processFiles_failures (env : Env) (W H : ℚ) (total : Nat) :
    ∀ i fs, (processFiles env W H total i fs).1.filter eventIsFailure = runFailures env fs := by
  intro i fs
  induction fs generalizing i with
  | nil => rfl
  | cons f fs ih =>
    simp only [processFiles, runFailures, failureEventsOf]
    cases hd : env.decode f with
    | ok d =>
      obtain ⟨iw, ih2⟩ := d
      simp [List.filter, eventIsFailure, ih]
    | error e => simp [List.filter, eventIsFailure, ih]

theorem runPages_of_ok (env : Env) (W H : ℚ) :
    ∀ fs, (∀ f ∈ fs, ∃ d, env.decode f = Except.ok d) →
      (runPages env W H fs).map Page.file = fs := by
  intro fs hfs
  induction fs with
  | nil => rfl
  | cons f fs ih =>
    obtain ⟨⟨iw, ih2⟩, hd⟩ := hfs f (List.mem_cons_self f fs)
    simp only [runPages, pagesOf, hd, List.map_append]
    have : (runPages env W H fs).map Page.file = fs :=
      ih (fun g hg => hfs g (List.mem_cons_of_mem f hg))
    simp [this, pageFor]

theorem runFailures_of_ok (env : Env) :
    ∀ fs, (∀ f ∈ fs, ∃ d, env.decode f = Except.ok d) →
      runFailures env fs = [] := by
  intro fs hfs
  induction fs with
  | nil => rfl
  | cons f fs ih =>
    obtain ⟨d, hd⟩ := hfs f (List.mem_cons_self f fs)
    simp only [runFailures, failureEventsOf, hd]
    exact ih (fun g hg => hfs g (List.mem_cons_of_mem f hg))

/-- Reduction of a run whose fallible steps before the loop succeed and
whose file list is non-empty. -/
theorem convertBody_run (env : Env) (entries : List DirEntry)
    (hmk : env.mkdirResult = Except.ok ())
    (hls : env.listing = Except.ok entries)
    (hne : imageFilesOf entries ≠ []) :
    convertBody env =
      (let WH := selectPagesize env.page_size
       let files := imageFilesOf entries
       let ep := processFiles env WH.1 WH.2 files.length 0 files
       match env.saveResult with
       | Except.error e => Except.error (⟨ep.1, ep.2, false⟩, e)
       | Except.ok _ => Except.ok ⟨ep.1 ++ [Event.saved env.output_pdf], ep.2, true⟩) := by
  unfold convertBody
  rw [hmk, hls]
  simp only []
  rw [if_neg (by simpa using hne)]

/-! ### Concrete runs used as witnesses and counterexamples -/

/-- A run that succeeds end to end on one decodable image. -/
def successEnv : Env :=
  { image_folder := "imgs", output_pdf := "out.pdf", page_size := "letter",
    mkdirResult := Except.ok (),
    listing := Except.ok [⟨"a.png", false⟩],
    decode := fun f => if f = "a.png" then Except.ok ((100 : ℚ), 100) else Except.error "err",
    saveResult := Except.ok () }

/-- A run whose `os.listdir` raises (missing source directory). -/
def fatalListEnv : Env :=
  { image_folder := "missing", output_pdf := "out.pdf", page_size := "letter",
    mkdirResult := Except.ok (),
    listing := Except.error "FileNotFoundError",
    decode := fun _ => Except.error "unused",
    saveResult := Except.ok () }

/-- A run whose `c.save()` raises (unwritable destination). -/
def saveFailEnv : Env :=
  { image_folder := "imgs", output_pdf := "bad/out.pdf", page_size := "letter",
    mkdirResult := Except.ok (),
    listing := Except.ok [⟨"a.png", false⟩],
    decode := fun f => if f = "a.png" then Except.ok ((100 : ℚ), 100) else Except.error "err",
    saveResult := Except.error "PermissionError" }

/-- A run on a directory with no matching image files. -/
def emptyDirEnv : Env :=
  { image_folder := "empty", output_pdf := "out.pdf", page_size := "letter",
    mkdirResult := Except.ok (),
    listing := Except.ok [⟨"notes.txt", false⟩],
    decode := fun _ => Except.error "unused",
    saveResult := Except.ok () }

/-- A batch of three images whose second fails to decode. -/
def threeEnv : Env :=
  { image_folder := "imgs", output_pdf := "out.pdf", page_size := "letter",
    mkdirResult := Except.ok (),
    listing := Except.ok [⟨"img1.png", false⟩, ⟨"img2.png", false⟩, ⟨"img3.png", false⟩],
    decode := fun f =>
      if f = "img2.png" then Except.error "decode failed"
      else if f = "img1.png" then Except.ok ((100 : ℚ), 100)
      else if f = "img3.png" then Except.ok ((200 : ℚ), 150)
      else Except.error "unused",
    saveResult := Except.ok () }

/-- Two filenames with equal natural sort keys. -/
def tieEntries : List DirEntry := [⟨"A1.png", false⟩, ⟨"a01.png", false⟩]

/-! ## The claims -/

/-- Claim C9: for every input, `convert_images_to_pdf` never lets an
exception escape and always returns `None` (given that the progress
callback never raises, as the model assumes): the outer handler of the
source catches every exception, so the caller-visible result is the
same on every run and carries no success/failure information; failures
are reported only through the progress-callback events. -/
theorem convert_never_raises : ∀ env : Env, (convert_images_to_pdf env).1 = Except.ok () := by
  intro env
  unfold convert_images_to_pdf
  cases convertBody env with
  | ok s => rfl
  | error p => rfl

/-- Claim C4 (counterexample): a run whose directory listing raises is
not surfaced as a distinct, programmatically detectable terminal
failure: its caller-visible result equals that of a fully successful
run; the only signal is the fatal progress event. -/
theorem fatal_error_not_detectable_counterexample :
    (convert_images_to_pdf fatalListEnv).1 = (convert_images_to_pdf successEnv).1
  ∧ (convert_images_to_pdf fatalListEnv).2.events = [Event.fatal "FileNotFoundError"]
  ∧ (convert_images_to_pdf fatalListEnv).2.savedFile = false
  ∧ (convert_images_to_pdf successEnv).2.savedFile = true
  ∧ (convert_images_to_pdf successEnv).2.events.getLast? = some (Event.saved "out.pdf") := by
  refine ⟨rfl, by decide, by decide, by decide, by decide⟩

/-- Claim C4 (amended): every fatal error (unlistable source directory,
or output document that cannot be written) aborts the run without a
saved file and is reported only through a single fatal progress event
carrying the error detail; the function raises nothing and returns
`None`, exactly as on success, so no distinct terminal failure signal
reaches the caller. -/
theorem fatal_error_progress_only :
    (∀ (env : Env) (e : String),
      env.mkdirResult = Except.ok () → env.listing = Except.error e →
        (convert_images_to_pdf env).1 = Except.ok ()
      ∧ (convert_images_to_pdf env).2.events = [Event.fatal e]
      ∧ (convert_images_to_pdf env).2.pages = []
      ∧ (convert_images_to_pdf env).2.savedFile = false)
  ∧ (∀ (env : Env) (entries : List DirEntry) (e : String),
      env.mkdirResult = Except.ok () → env.listing = Except.ok entries →
      imageFilesOf entries ≠ [] → env.saveResult = Except.error e →
        (convert_images_to_pdf env).1 = Except.ok ()
      ∧ (convert_images_to_pdf env).2.events.getLast? = some (Event.fatal e)
      ∧ (convert_images_to_pdf env).2.savedFile = false) := by
  constructor
  · intro env e hmk hls
    unfold convert_images_to_pdf convertBody
    rw [hmk, hls]
    exact ⟨rfl, rfl, rfl, rfl⟩
  · intro env entries e hmk hls hne hsv
    unfold convert_images_to_pdf
    rw [convertBody_run env entries hmk hls hne]
    simp [hsv, List.getLast?_concat]

/-- Claim C4 (amended) witness: the two fatal runs above. -/
theorem fatal_error_progress_only_witness :
    ((convert_images_to_pdf fatalListEnv).1 = Except.ok ()
      ∧ (convert_images_to_pdf fatalListEnv).2.events = [Event.fatal "FileNotFoundError"]
      ∧ (convert_images_to_pdf fatalListEnv).2.pages = []
      ∧ (convert_images_to_pdf fatalListEnv).2.savedFile = false)
  ∧ ((convert_images_to_pdf saveFailEnv).1 = Except.ok ()
      ∧ (convert_images_to_pdf saveFailEnv).2.events.getLast? = some (Event.fatal "PermissionError")
      ∧ (convert_images_to_pdf saveFailEnv).2.savedFile = false) :=
  ⟨fatal_error_progress_only.1 fatalListEnv "FileNotFoundError" rfl rfl,
   fatal_error_progress_only.2 saveFailEnv [⟨"a.png", false⟩] "PermissionError"
     rfl rfl (by decide) rfl⟩

/-- Claim C5 (counterexample): the run on an empty directory emits the
no-images event, writes nothing — but it does not return a completion
status `Empty` distinguishable from full success: its caller-visible
result equals that of a fully successful run. -/
theorem empty_input_status_counterexample :
    (convert_images_to_pdf emptyDirEnv).2.events = [Event.noImages]
  ∧ (convert_images_to_pdf emptyDirEnv).2.pages = []
  ∧ (convert_images_to_pdf emptyDirEnv).2.savedFile = false
  ∧ (convert_images_to_pdf successEnv).2.savedFile = true
  ∧ (convert_images_to_pdf emptyDirEnv).1 = (convert_images_to_pdf successEnv).1 := by
  refine ⟨by decide, by decide, by decide, by decide, rfl⟩

/-- Claim C5 (amended): a run whose ordered filename list is empty emits
exactly one progress event signalling that no images were found,
performs no document writes (zero pages, no output file), and returns
`None` exactly as a successful run does: the empty case is
distinguishable only through the progress events, not through any
completion status. -/
theorem empty_input_progress_only (env : Env) (entries : List DirEntry)
    (hmk : env.mkdirResult = Except.ok ())
    (hls : env.listing = Except.ok entries)
    (hempty : imageFilesOf entries = []) :
    (convert_images_to_pdf env).2.events = [Event.noImages]
  ∧ (convert_images_to_pdf env).2.pages = []
  ∧ (convert_images_to_pdf env).2.savedFile = false
  ∧ (convert_images_to_pdf env).1 = Except.ok () := by
  unfold convert_images_to_pdf convertBody
  rw [hmk, hls]
  simp [hempty]

/-- Claim C3: in a batch whose ordered file list is `pre ++ bad :: post`
where exactly the file `bad` fails to decode or draw and the run's
other fallible steps succeed, the pipeline emits exactly one failure
event, carrying that file's name and error detail; it draws no page for
that file and exactly one page for every other file, in order; and it
still finalizes the document and ends with the success event naming the
destination path. -/
theorem partial_failure_batch_continues (env : Env) (entries : List DirEntry)
    (pre post : List String) (bad err : String)
    (hmk : env.mkdirResult = Except.ok ())
    (hls : env.listing = Except.ok entries)
    (hsv : env.saveResult = Except.ok ())
    (hfiles : imageFilesOf entries = pre ++ bad :: post)
    (hbad : env.decode bad = Except.error err)
    (hok : ∀ f ∈ pre ++ post, ∃ d, env.decode f = Except.ok d) :
    ((convert_images_to_pdf env).2.events.filter eventIsFailure = [Event.fileFailed bad err])
  ∧ ((convert_images_to_pdf env).2.pages.map Page.file = pre ++ post)
  ∧ ((convert_images_to_pdf env).2.events.getLast? = some (Event.saved env.output_pdf))
  ∧ (convert_images_to_pdf env).2.savedFile = true := by
  have hne : imageFilesOf entries ≠ [] := by
    rw [hfiles]; simp
  have hpre : ∀ f ∈ pre, ∃ d, env.decode f = Except.ok d :=
    fun f hf => hok f (List.mem_append_left _ hf)
  have hpost : ∀ f ∈ post, ∃ d, env.decode f = Except.ok d :=
    fun f hf => hok f (List.mem_append_right _ hf)
  unfold convert_images_to_pdf
  rw [convertBody_run env entries hmk hls hne]
  simp only [hsv]
  refine ⟨?_, ?_, ?_, trivial⟩
  · rw [List.filter_append, processFiles_failures, hfiles, runFailures_append]
    rw [runFailures_of_ok env pre hpre]
    have hb : runFailures env (bad :: post) = [Event.fileFailed bad err] := by
      simp only [runFailures, failureEventsOf, hbad]
      rw [runFailures_of_ok env post hpost]
      simp
    rw [hb]
    simp [List.filter, eventIsFailure]
  · rw [processFiles_pages, hfiles, runPages_append, List.map_append]
    rw [runPages_of_ok _ _ _ pre hpre]
    have hb : runPages env (selectPagesize env.page_size).1 (selectPagesize env.page_size).2
        (bad :: post) = runPages env (selectPagesize env.page_size).1
        (selectPagesize env.page_size).2 post := by
      simp only [runPages, pagesOf, hbad]
      rfl
    rw [hb, runPages_of_ok _ _ _ post hpost]
  · exact List.getLast?_concat _

/-- Claim C3 witness: three images, the second fails. -/
theorem partial_failure_batch_continues_witness :
    threeEnv.decode "img2.png" = Except.error "decode failed"
  ∧ ((convert_images_to_pdf threeEnv).2.events.filter eventIsFailure
      = [Event.fileFailed "img2.png" "decode failed"])
  ∧ ((convert_images_to_pdf threeEnv).2.pages.map Page.file = ["img1.png"] ++ ["img3.png"])
  ∧ ((convert_images_to_pdf threeEnv).2.events.getLast? = some (Event.saved threeEnv.output_pdf))
  ∧ (convert_images_to_pdf threeEnv).2.savedFile = true :=
  ⟨rfl,
   partial_failure_batch_continues threeEnv
     [⟨"img1.png", false⟩, ⟨"img2.png", false⟩, ⟨"img3.png", false⟩]
     ["img1.png"] ["img3.png"] "img2.png" "decode failed"
     rfl rfl rfl (by decide) rfl
     (by
       intro f hf
       simp only [List.cons_append, List.nil_append, List.mem_cons,
         List.not_mem_nil, or_false] at hf
       rcases hf with rfl | rfl
       · exact ⟨((100 : ℚ), 100), rfl⟩
       · exact ⟨((200 : ℚ), 150), rfl⟩)⟩

/-- Claim C5 (amended) witness: the empty-directory run above. -/
theorem empty_input_progress_only_witness :
    (convert_images_to_pdf emptyDirEnv).2.events = [Event.noImages]
  ∧ (convert_images_to_pdf emptyDirEnv).2.pages = []
  ∧ (convert_images_to_pdf emptyDirEnv).2.savedFile = false
  ∧ (convert_images_to_pdf emptyDirEnv).1 = Except.ok () :=
  empty_input_progress_only emptyDirEnv [⟨"notes.txt", false⟩] rfl rfl (by decide)

theorem computePlacement_scale (W H iw ih : ℚ) :
    (computePlacement W H iw ih).scale
      = min 1 (min ((W - 2 * margin) / iw) ((H - 2 * margin) / ih)) := by
  unfold computePlacement
  simp only []
  rcases le_or_lt (min ((W - 2 * margin) / iw) ((H - 2 * margin) / ih)) 1 with h | h
  · rw [if_neg (not_lt.mpr h), min_eq_right h]
  · rw [if_pos h, min_eq_left h.le]

theorem computePlacement_w (W H iw ih : ℚ) :
    (computePlacement W H iw ih).w = iw * (computePlacement W H iw ih).scale := rfl

theorem computePlacement_h (W H iw ih : ℚ) :
    (computePlacement W H iw ih).h = ih * (computePlacement W H iw ih).scale := rfl

theorem computePlacement_x (W H iw ih : ℚ) :
    (computePlacement W H iw ih).x = (W - (computePlacement W H iw ih).w) / 2 := rfl

theorem computePlacement_y (W H iw ih : ℚ) :
    (computePlacement W H iw ih).y = (H - (computePlacement W H iw ih).h) / 2 := rfl

/-- Claim C1: for an image whose decode succeeds with dimensions
`(iw, ih)` on a page `(W, H)`, the loop emits its processing event and
draws exactly the page placed by the margin-20 fit: drawn size is the
image size times `min(max_w/img_w, max_h/img_h)` clamped to at most 1,
centered on the page; an image that already fits inside the margin box
is drawn at native size, never upscaled. -/
theorem fit_scale_centered_never_upscaled (env : Env) (f : String) (W H iw ih : ℚ)
    (total i : Nat) (hiw : 0 < iw) (hih : 0 < ih)
    (hdec : env.decode f = Except.ok (iw, ih)) :
    (processFiles env W H total i [f]
        = ([Event.processing (i + 1) total f], [pageFor f W H iw ih]))
  ∧ (pageFor f W H iw ih).w = iw * min 1 (min ((W - 2 * margin) / iw) ((H - 2 * margin) / ih))
  ∧ (pageFor f W H iw ih).h = ih * min 1 (min ((W - 2 * margin) / iw) ((H - 2 * margin) / ih))
  ∧ (pageFor f W H iw ih).x = (W - (pageFor f W H iw ih).w) / 2
  ∧ (pageFor f W H iw ih).y = (H - (pageFor f W H iw ih).h) / 2
  ∧ (iw ≤ W - 2 * margin → ih ≤ H - 2 * margin →
      (pageFor f W H iw ih).w = iw ∧ (pageFor f W H iw ih).h = ih) := by
  have hsc := computePlacement_scale W H iw ih
  refine ⟨?_, ?_, ?_, ?_, ?_, ?_⟩
  · simp [processFiles, hdec]
  · show (computePlacement W H iw ih).w = _
    rw [computePlacement_w, hsc]
  · show (computePlacement W H iw ih).h = _
    rw [computePlacement_h, hsc]
  · exact computePlacement_x W H iw ih
  · exact computePlacement_y W H iw ih
  · intro hw hh
    have h1 : (1 : ℚ) ≤ (W - 2 * margin) / iw := (one_le_div hiw).mpr hw
    have h2 : (1 : ℚ) ≤ (H - 2 * margin) / ih := (one_le_div hih).mpr hh
    have hone : min 1 (min ((W - 2 * margin) / iw) ((H - 2 * margin) / ih)) = 1 :=
      min_eq_left (le_min h1 h2)
    constructor
    · show (computePlacement W H iw ih).w = iw
      rw [computePlacement_w, hsc, hone, mul_one]
    · show (computePlacement W H iw ih).h = ih
      rw [computePlacement_h, hsc, hone, mul_one]

/-- Claim C1 witness: a 100×100 image on a 540×540 page (margin box
500×500) is drawn at native size. -/
theorem fit_scale_centered_never_upscaled_witness :
    (0 : ℚ) < 100
  ∧ successEnv.decode "a.png" = Except.ok (100, 100)
  ∧ processFiles successEnv 540 540 1 0 ["a.png"]
      = ([Event.processing 1 1 "a.png"], [pageFor "a.png" 540 540 100 100])
  ∧ (pageFor "a.png" 540 540 100 100).w = 100
  ∧ (pageFor "a.png" 540 540 100 100).h = 100 := by
  have h := fit_scale_centered_never_upscaled successEnv "a.png" 540 540 100 100 1 0
    (by norm_num) (by norm_num) rfl
  have hfit := h.2.2.2.2.2 (by norm_num [margin]) (by norm_num [margin])
  exact ⟨by norm_num, rfl, h.1, hfit.1, hfit.2⟩

/-- Claim C2: the Sequencer output is ordered by the natural sort key
(split into alternating non-digit/digit runs, digit runs as integers,
non-digit runs lowercased, compared element-wise), and on the input
filenames img2/img10/img1 it produces the human order img1, img2,
img10. -/
theorem sequencer_natural_order :
    (∀ entries : List DirEntry, (imageFilesOf entries).Pairwise natLe)
  ∧ imageFilesOf [⟨"img2.png", false⟩, ⟨"img10.png", false⟩, ⟨"img1.png", false⟩]
      = ["img1.png", "img2.png", "img10.png"] := by
  constructor
  · intro entries
    exact List.sorted_insertionSort natLe _
  · decide

/-- Claim C6 (counterexample): a subdirectory named `sub.png` is
retained by the Sequencer, not discarded: the filter of the source
tests only the name returned by `os.listdir`, never the entry kind. -/
theorem subdirectory_retained_counterexample :
    (DirEntry.mk "sub.png" true).isDir = true
  ∧ imageFilesOf [DirEntry.mk "sub.png" true] = ["sub.png"] :=
  ⟨rfl, by decide⟩

/-- Claim C6 (amended): the Sequencer retains exactly those entries
whose lowercased name ends with one of .png/.jpg/.jpeg/.gif/.bmp/.tiff,
whether the entry is a file or a subdirectory; the example directory
a.png/b.txt/c.JPG yields a.png, c.JPG. -/
theorem extension_filter_name_based :
    (∀ entries : List DirEntry,
      (imageFilesOf entries).Perm ((entries.map DirEntry.name).filter (fun f => hasImageExt f)))
  ∧ imageFilesOf [⟨"a.png", false⟩, ⟨"b.txt", false⟩, ⟨"c.JPG", false⟩] = ["a.png", "c.JPG"] := by
  constructor
  · intro entries
    exact List.perm_insertionSort natLe _
  · decide

/-- Claim C7: the pipeline uses the A4 page dimensions exactly when the
page-size string lowercases to a4, and silently falls back to the
Letter dimensions for every other string; page-size selection is a
total function and raises nothing. -/
theorem page_size_policy :
    a4Size ≠ letterSize
  ∧ (∀ ps : String, ps.data.map asciiLower = "a4".data → selectPagesize ps = a4Size)
  ∧ (∀ ps : String, ps.data.map asciiLower ≠ "a4".data → selectPagesize ps = letterSize) := by
  refine ⟨?_, ?_, ?_⟩
  · intro h
    have h1 : (75600 / 127 : ℚ) = 612 := congrArg Prod.fst h
    norm_num at h1
  · intro ps h
    unfold selectPagesize
    rw [if_pos h]
  · intro ps h
    unfold selectPagesize
    rw [if_neg h]

/-- Claim C7 witness: the strings the presentation layer passes. -/
theorem page_size_policy_witness :
    selectPagesize "A4" = a4Size ∧ selectPagesize "letter" = letterSize :=
  ⟨page_size_policy.2.1 "A4" (by decide), page_size_policy.2.2 "letter" (by decide)⟩

/-- Claim C8: the sort is stable: two retained filenames with equal
natural sort keys keep, in the Sequencer output, the relative order
they had in the filtered directory enumeration. -/
theorem natural_sort_stable (entries : List DirEntry) (a b : String)
    (hkey : natural_sort_key a = natural_sort_key b)
    (hsub : List.Sublist [a, b] ((entries.map DirEntry.name).filter (fun f => hasImageExt f))) :
    List.Sublist [a, b] (imageFilesOf entries) := by
  have hab : natLe a b := by
    unfold natLe natKeyLE
    rw [hkey]
    exact keyLE_refl _
  exact List.pair_sublist_insertionSort hab hsub

/-- Claim C8 witness: A1.png and a01.png carry equal keys and keep their
enumeration order. -/
theorem natural_sort_stable_witness :
    natural_sort_key "A1.png" = natural_sort_key "a01.png"
  ∧ List.Sublist ["A1.png", "a01.png"] (imageFilesOf tieEntries) :=
  ⟨by decide,
   natural_sort_stable tieEntries "A1.png" "a01.png" (by decide)
     (by
       have h : (tieEntries.map DirEntry.name).filter (fun f => hasImageExt f)
           = ["A1.png", "a01.png"] := by decide
       rw [h])⟩

/-! ## The key function beyond ASCII: the isdigit/int mismatch

Python's regex class `\d` matches exactly the Unicode category Nd,
while `str.isdigit` also accepts the characters of numeric type Digit
that `int` rejects, such as the superscript two U+00B2.  A filename
containing such a character places it into an uncaptured piece of the
split; that piece passes `isdigit`, `int` raises `ValueError`, and the
exception propagates out of `sorted` (src/app.py lines 44-47) into the
outer handler, aborting the whole run.  The definitions below model the
key function exactly on the Latin-1 range: there the category Nd is
exactly the decimal digits 0-9 (so `splitDigitRuns` is the exact
split), and the digit-property characters are 0-9 together with the
superscripts U+00B9, U+00B2, U+00B3. -/

/-- Python `str.isdigit` at character level, exact on the Latin-1
range: the decimal digits and the three superscript digits. -/
def isDigitCharacter (c : Char) : Bool :=
  c.isDigit || c = '¹' || c = '²' || c = '³'

/-- Python `str.isdigit`, exact on Latin-1 strings: non-empty and all
digit-property characters. -/
def pyStrIsDigitU (cs : List Char) : Bool :=
  !cs.isEmpty && cs.all isDigitCharacter

/-- Python `int` applied to one piece: it succeeds exactly on non-empty
all-decimal-digit input and raises `ValueError` otherwise.  (Full
`int()` also strips whitespace and signs; the pieces reaching it here
have passed `isdigit`, where this model is exact.) -/
def pyInt (cs : List Char) : Except String Nat :=
  if !cs.isEmpty && cs.all Char.isDigit then Except.ok (digitsVal cs)
  else Except.error "ValueError"

/-- One element of the key list with the real `isdigit`/`int` pair:
`int(text) if text.isdigit() else text.lower()`, which raises when
`text` passes `isdigit` but is not all decimal digits. -/
def pieceKey (cs : List Char) : Except String NKey :=
  if pyStrIsDigitU cs then
    match pyInt cs with
    | Except.ok n => Except.ok (NKey.num n)
    | Except.error e => Except.error e
  else Except.ok (NKey.str (cs.map asciiLower))

/-- The key list of the comprehension, first raise wins (Python
evaluates it left to right). -/
def keyPieces : List (List Char) → Except String (List NKey)
  | [] => Except.ok []
  | cs :: rest =>
    match pieceKey cs with
    | Except.error e => Except.error e
    | Except.ok k =>
      match keyPieces rest with
      | Except.error e => Except.error e
      | Except.ok ks => Except.ok (k :: ks)

/-- The fallible key function of the source, exact on Latin-1
filenames. -/
def natural_sort_key_latin1 (s : String) : Except String (List NKey) :=
  keyPieces (splitDigitRuns s.data)

theorem all_isDigitCharacter_congr (p : List Char)
    (h : ∀ c ∈ p, isDigitCharacter c = c.isDigit) :
    p.all isDigitCharacter = p.all Char.isDigit := by
  induction p with
  | nil => rfl
  | cons c cs ih =>
    simp only [List.all_cons]
    rw [h c (List.mem_cons_self c cs), ih (fun d hd => h d (List.mem_cons_of_mem c hd))]

theorem pieceKey_of_decimal (p : List Char)
    (h : ∀ c ∈ p, isDigitCharacter c = c.isDigit) :
    pieceKey p = Except.ok (pyKeyElem p) := by
  unfold pieceKey pyKeyElem pyStrIsDigitU pyStrIsDigit pyInt
  rw [all_isDigitCharacter_congr p h]
  by_cases hd : (!p.isEmpty && p.all Char.isDigit) = true
  · rw [if_pos hd, if_pos hd, if_pos hd]
  · rw [if_neg hd, if_neg hd]

theorem keyPieces_of_decimal : ∀ pieces : List (List Char),
    (∀ p ∈ pieces, ∀ c ∈ p, isDigitCharacter c = c.isDigit) →
    keyPieces pieces = Except.ok (pieces.map pyKeyElem) := by
  intro pieces h
  induction pieces with
  | nil => rfl
  | cons p rest ih =>
    simp only [keyPieces, pieceKey_of_decimal p (h p (List.mem_cons_self p rest))]
    rw [ih (fun q hq => h q (List.mem_cons_of_mem p hq))]
    simp

/-- Wherever the digit property and the category Nd agree on every
character of the filename — on all ASCII names in particular — the real
key function succeeds and returns exactly the key of the total model
used by the Sequencer embedding. -/
theorem natural_sort_key_latin1_agrees (s : String)
    (h : ∀ c ∈ s.data, isDigitCharacter c = c.isDigit) :
    natural_sort_key_latin1 s = Except.ok (natural_sort_key s) := by
  unfold natural_sort_key_latin1 natural_sort_key
  apply keyPieces_of_decimal
  intro p hp c hc
  apply h
  have hmem : c ∈ (splitDigitRuns s.data).flatten := List.mem_flatten.mpr ⟨p, hp, hc⟩
  rwa [splitDigitRuns_flatten] at hmem

/-- Claim C10 (code evaluated at the failing input): the filename
a1²2.png passes the extension filter; the split leaves the superscript
two in an uncaptured piece; that piece passes `isdigit` while it is not
a decimal digit, so `int` raises and the real key function returns
`ValueError` instead of a key list — the claimed total, well-defined
key derivation fails, and in the program the exception propagates out
of `sorted` into the outer handler and aborts the run. -/
theorem natural_sort_key_valueerror :
    hasImageExt "a1²2.png" = true
  ∧ splitDigitRuns ("a1²2.png").data
      = ["a".data, "1".data, "²".data, "2".data, ".png".data]
  ∧ pyStrIsDigitU ("²").data = true
  ∧ Char.isDigit '²' = false
  ∧ natural_sort_key_latin1 "a1²2.png" = Except.error "ValueError" :=
  ⟨by decide, by decide, by decide, by decide, rfl⟩

end JPdf
